import Mathlib

/-!
# Student Spending Analyzer — core analysis module, shallow embedding

A faithful Lean embedding of the analyzer module (`StudentSpendAnalyzer`):
spending metrics, budget analysis and status classification, category
breakdown, timeline reduction, structural data validation, and the
per-student analysis entry point.

Modelling conventions:
* JavaScript numbers carrying currency amounts are modelled as exact
  rationals `ℚ`.
* `x.toFixed(n)` followed by `parseFloat` is modelled as rounding to
  `n` decimal places, half up (`round2` / `round1`).
* JavaScript objects used as accumulator dictionaries (`categoryTotals`,
  `dailySpending`) are modelled as association lists in key insertion
  order, matching the insertion-order key enumeration of
  `Object.entries` for string keys.
* `Array.prototype.sort`, which is stable, is modelled by a stable
  insertion sort with the same comparator.
* Possibly-absent JavaScript fields are modelled with `Option`; JS
  truthiness of a string is "present and non-empty", of a number
  "present and non-zero".
* Exceptions (`throw new Error(msg)`) are modelled with `Except String`.
-/

namespace SpendAnalyzer

/-- A spending transaction `{date, category, amount}` as consumed by the
analysis functions. -/
structure Transaction where
  date : String
  category : String
  amount : ℚ
deriving DecidableEq

/-- Models `parseFloat(x.toFixed(2))`: round to 2 decimal places, half up. -/
def round2 (x : ℚ) : ℚ := ((⌊x * 100 + 1/2⌋ : ℤ) : ℚ) / 100

/-- Models `parseFloat(x.toFixed(1))`: round to 1 decimal place, half up. -/
def round1 (x : ℚ) : ℚ := ((⌊x * 10 + 1/2⌋ : ℤ) : ℚ) / 10

/-- Mathematical sum of the amounts of a transaction list (specification-side
notion used to state theorems about the code's `reduce` loops). -/
def sumAmounts (ts : List Transaction) : ℚ := (ts.map fun t => t.amount).sum

/-- Source: `getUniqueDays` — `new Set(transactions.map(t => t.date)).size`,
the number of distinct date values. -/
def getUniqueDays (ts : List Transaction) : ℕ := (ts.map fun t => t.date).dedup.length

/-- Result shape of `calculateSpendingMetrics`. -/
structure SpendingMetrics where
  total : ℚ
  average : ℚ
  transactionCount : ℕ
  dailyAverage : ℚ
deriving DecidableEq

/-- Source: `calculateSpendingMetrics(transactions)`. Empty input returns the
all-zero record; otherwise the raw total is accumulated by `reduce`, the
average divides by the transaction count, the daily average by the number of
distinct days, and each reported number is rounded to 2 decimals. -/
def calculateSpendingMetrics (ts : List Transaction) : SpendingMetrics :=
  if ts.length = 0 then ⟨0, 0, 0, 0⟩
  else
    let total := ts.foldl (fun sum t => sum + t.amount) 0
    let average := total / (ts.length : ℚ)
    let uniqueDays := getUniqueDays ts
    let dailyAverage := if 0 < uniqueDays then total / (uniqueDays : ℚ) else 0
    ⟨round2 total, round2 average, ts.length, round2 dailyAverage⟩

/-- Source: `getBudgetStatus(utilizationPercentage)` — the 5-band
classification with inclusive upper boundaries on each lower band. -/
def getBudgetStatus (u : ℚ) : String :=
  if u ≤ 50 then ("Conservative")
  else if u ≤ 75 then ("Moderate")
  else if u ≤ 90 then ("High")
  else if u ≤ 100 then ("Near Limit")
  else ("Over Budget")

/-- Result shape of `analyzeBudget`. -/
structure BudgetAnalysis where
  allocated : ℚ
  spent : ℚ
  remaining : ℚ
  utilization : ℚ
  status : String
  isOverBudget : Bool
deriving DecidableEq

/-- Source: `analyzeBudget(transactions, budget)`. The utilization percentage
is guarded by `budget > 0 ? ... : 0`; the status classifies the unrounded
percentage; `isOverBudget` compares the unrounded total against the budget. -/
def analyzeBudget (ts : List Transaction) (budget : ℚ) : BudgetAnalysis :=
  let totalSpent := ts.foldl (fun sum t => sum + t.amount) 0
  let remaining := budget - totalSpent
  let utilizationPercentage := if 0 < budget then totalSpent / budget * 100 else 0
  { allocated := budget
    spent := round2 totalSpent
    remaining := round2 remaining
    utilization := round1 utilizationPercentage
    status := getBudgetStatus utilizationPercentage
    isOverBudget := decide (totalSpent > budget) }

/-- One step of the `categoryTotals` / `categoryTransactionCounts` accumulator
objects: add `amt` (and one to the count) under key `cat`, creating the key at
the end on first sight, as JS object insertion does. -/
def addCat (cat : String) (amt : ℚ) : List (String × ℚ × ℕ) → List (String × ℚ × ℕ)
  | [] => [(cat, amt, 1)]
  | (c, a, n) :: rest =>
    if c = cat then (c, a + amt, n + 1) :: rest else (c, a, n) :: addCat cat amt rest

/-- Source: the `transactions.forEach` accumulation in
`analyzeCategoricalSpending`, producing per-category summed amount and
transaction count in first-seen key order. -/
def groupCategories (ts : List Transaction) : List (String × ℚ × ℕ) :=
  ts.foldl (fun acc t => addCat t.category t.amount acc) []

/-- One element of the formatted category array. -/
structure CategoryEntry where
  name : String
  amount : ℚ
  percentage : ℚ
  transactionCount : ℕ
  averagePerTransaction : ℚ
deriving DecidableEq

/-- The `Object.entries(categoryTotals).map(...)` step: format one grouped
category given the grand total `totalSpent`. -/
def mkCategoryEntry (totalSpent : ℚ) (x : String × ℚ × ℕ) : CategoryEntry :=
  { name := x.1
    amount := round2 x.2.1
    percentage := if 0 < totalSpent then round1 (x.2.1 / totalSpent * 100) else 0
    transactionCount := x.2.2
    averagePerTransaction := round2 (x.2.1 / (x.2.2 : ℚ)) }

/-- The formatted category array of `analyzeCategoricalSpending` before the
final sort, in first-seen category order. `totalSpent` is the sum of the
grouped per-category totals, as in the source's
`Object.values(categoryTotals).reduce(...)`. -/
def categoryEntriesBase (ts : List Transaction) : List CategoryEntry :=
  let g := groupCategories ts
  let totalSpent := (g.map fun x => x.2.1).sum
  g.map (mkCategoryEntry totalSpent)

/-- Stable insertion of `c` into a list sorted by `amount` descending: `c` is
placed before the first element whose amount does not exceed it, so among
equal amounts an element inserted from further left stays further left. -/
def insertByAmountDesc (c : CategoryEntry) : List CategoryEntry → List CategoryEntry
  | [] => [c]
  | d :: ds => if c.amount < d.amount then d :: insertByAmountDesc c ds else c :: d :: ds

/-- Stable sort by `amount` descending, modelling
`categories.sort((a, b) => b.amount - a.amount)` (JS `Array.prototype.sort`
is stable). -/
def sortByAmountDesc (l : List CategoryEntry) : List CategoryEntry :=
  l.foldr insertByAmountDesc []

/-- Source: `analyzeCategoricalSpending(transactions)` — group by category,
format each category against the grand total, then sort by amount spent
(highest first). -/
def analyzeCategoricalSpending (ts : List Transaction) : List CategoryEntry :=
  sortByAmountDesc (categoryEntriesBase ts)

/-- One step of the `dailySpending` accumulator object:
`dailySpending[t.date] = (dailySpending[t.date] || 0) + t.amount`. -/
def addToGroup (key : String) (amt : ℚ) : List (String × ℚ) → List (String × ℚ)
  | [] => [(key, amt)]
  | (k, a) :: rest =>
    if k = key then (k, a + amt) :: rest else (k, a) :: addToGroup key amt rest

/-- Source: the per-date accumulation loop of `analyzeSpendingTimeline`,
in first-seen key order. -/
def groupByDate (ts : List Transaction) : List (String × ℚ) :=
  ts.foldl (fun acc t => addToGroup t.date t.amount acc) []

/-- Specification-side lookup in an association list of per-date sums. -/
def lookupAmt (d : String) : List (String × ℚ) → Option ℚ
  | [] => none
  | p :: rest => if p.1 = d then some p.2 else lookupAmt d rest

/-- Digit-concatenation value of a string, accumulator style. -/
def digitsVal : List Char → ℕ → ℕ
  | [], acc => acc
  | c :: cs, acc => if c.isDigit then digitsVal cs (acc * 10 + (c.toNat - 48)) else digitsVal cs acc

/-- Models the chronological value `new Date(dateString).getTime()` used by the
timeline sort comparator, for ISO-8601 `YYYY-MM-DD` strings: concatenating the
digits gives a value that is order-isomorphic to the calendar date. -/
def dateKey (s : String) : ℕ := digitsVal s.toList 0

/-- One per-day entry of the timeline; the `date` is `none` only in the
zero-transaction sentinel `{date: null, amount: 0}`. -/
structure DayEntry where
  date : Option String
  amount : ℚ
deriving DecidableEq

/-- Sort key of a day entry. -/
def entryKey (e : DayEntry) : ℕ :=
  match e.date with
  | none => 0
  | some d => dateKey d

/-- Stable insertion of `e` into a list sorted by date ascending. -/
def insertByDateAsc (e : DayEntry) : List DayEntry → List DayEntry
  | [] => [e]
  | d :: ds => if entryKey d < entryKey e then d :: insertByDateAsc e ds else e :: d :: ds

/-- Stable sort by date ascending, modelling
`.sort((a, b) => new Date(a.date) - new Date(b.date))`. -/
def sortByDateAsc (l : List DayEntry) : List DayEntry :=
  l.foldr insertByDateAsc []

/-- Result shape of `analyzeSpendingTimeline`. -/
structure Timeline where
  dailySpending : List DayEntry
  highestSpendingDay : DayEntry
  lowestSpendingDay : DayEntry
deriving DecidableEq

/-- Source: `analyzeSpendingTimeline(transactions)` — group amounts by date,
round each daily sum to 2 decimals, sort ascending by date, then `reduce` with
the first element (or the `{date: null, amount: 0}` sentinel) as initial value
to find the highest and lowest spending day; the strict comparisons make the
first occurrence win on ties. -/
def analyzeSpendingTimeline (ts : List Transaction) : Timeline :=
  let sortedDays := sortByDateAsc ((groupByDate ts).map fun p => ⟨some p.1, round2 p.2⟩)
  { dailySpending := sortedDays
    highestSpendingDay :=
      sortedDays.foldl (fun mx day => if day.amount > mx.amount then day else mx)
        (sortedDays.headD ⟨none, 0⟩)
    lowestSpendingDay :=
      sortedDays.foldl (fun mn day => if day.amount < mn.amount then day else mn)
        (sortedDays.headD ⟨none, 0⟩) }

/-- A raw (unvalidated) transaction as loaded from JSON: any field may be
absent. -/
structure RawTransaction where
  date : Option String
  category : Option String
  amount : Option ℚ
deriving DecidableEq

/-- A raw (unvalidated) student record as loaded from JSON. -/
structure RawStudent where
  studentId : Option String
  name : Option String
  monthlyBudget : Option ℚ
  transactions : Option (List RawTransaction)
deriving DecidableEq

/-- The raw loaded data object. -/
structure RawData where
  students : Option (List RawStudent)
deriving DecidableEq

/-- JS truthiness of a possibly-absent string field: present and non-empty. -/
def truthyStr : Option String → Bool
  | none => false
  | some s => !s.isEmpty

/-- JS truthiness of a possibly-absent numeric field: present and non-zero. -/
def truthyNum : Option ℚ → Bool
  | none => false
  | some q => decide (q ≠ 0)

/-- The inner `student.transactions.forEach` loop of `validateData`:
`!transaction.date || !transaction.category || transaction.amount === undefined`
throws naming the 1-based student and transaction indices. -/
def validateTransactions (sIdx : ℕ) : ℕ → List RawTransaction → Except String Unit
  | _, [] => Except.ok ()
  | tIdx, t :: rest =>
    if !truthyStr t.date || !truthyStr t.category || t.amount.isNone then
      Except.error ("Student " ++ toString sIdx ++ ", Transaction " ++ toString tIdx
        ++ ": Missing required fields")
    else validateTransactions sIdx (tIdx + 1) rest

/-- The outer `this.data.students.forEach` loop of `validateData`, carrying the
1-based student index. -/
def validateStudents : ℕ → List RawStudent → Except String Unit
  | _, [] => Except.ok ()
  | idx, s :: rest =>
    if !truthyStr s.studentId || !truthyStr s.name || !truthyNum s.monthlyBudget then
      Except.error ("Student " ++ toString idx ++ ": Missing required fields")
    else
      match s.transactions with
      | none => Except.error ("Student " ++ toString idx ++ ": Missing or invalid transactions")
      | some ts =>
        match validateTransactions idx 1 ts with
        | Except.error e => Except.error e
        | Except.ok _ => validateStudents (idx + 1) rest

/-- Source: `validateData()` — checks `this.data` and `this.data.students`
exist, then walks every student and every transaction, throwing on the first
structural defect. -/
def validateData (data : Option RawData) : Except String Unit :=
  match data with
  | none => Except.error ("Invalid data structure: Missing students array")
  | some d =>
    match d.students with
    | none => Except.error ("Invalid data structure: Missing students array")
    | some ss => validateStudents 1 ss

/-- A well-shaped student record, as the analysis path consumes it. -/
structure Student where
  studentId : String
  name : String
  semester : String
  monthlyBudget : ℚ
  transactions : List Transaction
deriving DecidableEq

/-- A well-shaped dataset held by the analyzer (`this.data`). -/
structure Dataset where
  students : List Student
deriving DecidableEq

/-- The `studentInfo` block of an analysis. -/
structure StudentInfo where
  id : String
  name : String
  semester : String
  budget : ℚ
deriving DecidableEq

/-- The full result object of `analyzeStudent`. -/
structure Analysis where
  studentInfo : StudentInfo
  spending : SpendingMetrics
  budget : BudgetAnalysis
  categories : List CategoryEntry
  timeline : Timeline
deriving DecidableEq

/-- Source: `analyzeStudent(studentId)` — throws when no data is loaded,
throws a not-found error naming the id when no student matches, and otherwise
assembles the analysis from the four calculation functions. -/
def analyzeStudent (data : Option Dataset) (studentId : String) : Except String Analysis :=
  match data with
  | none => Except.error ("No data loaded. Call loadData() first.")
  | some d =>
    match d.students.find? (fun s => s.studentId = studentId) with
    | none => Except.error ("Student " ++ studentId ++ " not found")
    | some student =>
      Except.ok
        { studentInfo :=
            { id := student.studentId
              name := student.name
              semester := student.semester
              budget := student.monthlyBudget }
          spending := calculateSpendingMetrics student.transactions
          budget := analyzeBudget student.transactions student.monthlyBudget
          categories := analyzeCategoricalSpending student.transactions
          timeline := analyzeSpendingTimeline student.transactions }

/-- First-seen (insertion-order) list of the distinct elements of `l`,
modelling the key enumeration order of a JS accumulator object. -/
def firstSeenKeys (l : List String) : List String :=
  l.foldl (fun acc c => if c ∈ acc then acc else acc ++ [c]) []

/-! ## Concrete inputs used by witnesses and counterexamples -/

/-- Two transactions on one day whose sum 0.005 has a third decimal place. -/
def subCentTs : List Transaction :=
  [⟨"2024-01-01", "Food", 1/200⟩, ⟨"2024-01-01", "Food", 0⟩]

/-- A one-element transaction list with an exact amount. -/
def oneFoodTs : List Transaction := [⟨"2024-01-01", "Food", 3⟩]

/-- A single transaction of amount 0: a valid record whose grand total is 0. -/
def zeroAmountTs : List Transaction := [⟨"2024-01-01", "Food", 0⟩]

/-- A small dataset with two students. -/
def exDataset : Dataset :=
  ⟨[⟨"STU001", "Alice", "Fall", 400, []⟩, ⟨"STU002", "Bob", "Fall", 300, []⟩]⟩

/-- The spec's timeline example: dates 2024-01-02, 2024-01-01, 2024-01-02
carrying 40, 10 and 5. -/
def timelineExTs : List Transaction :=
  [⟨"2024-01-02", "Food", 40⟩, ⟨"2024-01-01", "Food", 10⟩, ⟨"2024-01-02", "Food", 5⟩]

/-- A raw dataset whose single student has every field present and a zero
budget limit. -/
def zeroBudgetData : RawData :=
  ⟨some [⟨some "S1", some "Alice", some 0, some []⟩]⟩

/-- A raw dataset whose second transaction is missing its amount. -/
def missingAmountData : RawData :=
  ⟨some [⟨some "S1", some "Alice", some 400,
    some [⟨some "2024-01-01", some "Food", some 5⟩,
          ⟨some "2024-01-02", some "Books", none⟩]⟩]⟩

/-- A raw dataset with every field present; the only amount is 0. -/
def zeroAmountData : RawData :=
  ⟨some [⟨some "S1", some "Alice", some 400,
    some [⟨some "2024-01-01", some "Food", some 0⟩]⟩]⟩

/-! ## General lemmas about the embedded operations -/

theorem foldl_add_amount (ts : List Transaction) (a : ℚ) :
    ts.foldl (fun sum t => sum + t.amount) a = a + sumAmounts ts := by
  induction ts generalizing a with
  | nil => simp [sumAmounts]
  | cons t rest ih => simp [sumAmounts, ih, add_assoc]

theorem round2_zero : round2 0 = 0 := by norm_num [round2]

theorem round1_zero : round1 0 = 0 := by norm_num [round1]

/-- Rounding to 2 decimal places fixes every integer multiple of 1/100, so a
single application of `round2` to an exact sum introduces no distortion on
cent-denominated data. -/
theorem round2_hundredth (n : ℤ) : round2 ((n : ℚ) / 100) = (n : ℚ) / 100 := by
  have h100 : (n : ℚ) / 100 * 100 + 1/2 = (n : ℚ) + (1/2 : ℚ) := by
    rw [div_mul_cancel₀]
    norm_num
  rw [round2, h100, Int.floor_int_add]
  norm_num

/-- Rounding to 1 decimal place moves a value by at most 1/20. -/
theorem abs_round1_sub_le (x : ℚ) : |round1 x - x| ≤ 1/20 := by
  have h1 := Int.floor_le (x * 10 + 1/2)
  have h2 := Int.lt_floor_add_one (x * 10 + 1/2)
  rw [round1, abs_le]
  constructor <;> linarith

/-- Accumulated rounding error of `round1` over a list is at most 1/20 per
element. -/
theorem sum_round1_err (l : List ℚ) :
    |(l.map round1).sum - l.sum| ≤ (l.length : ℚ) / 20 := by
  induction l with
  | nil => simp
  | cons a t ih =>
    have ha := abs_round1_sub_le a
    simp only [List.map_cons, List.sum_cons, List.length_cons]
    have hre : round1 a + (t.map round1).sum - (a + t.sum)
        = (round1 a - a) + ((t.map round1).sum - t.sum) := by ring
    rw [hre]
    calc |(round1 a - a) + ((t.map round1).sum - t.sum)|
        ≤ |round1 a - a| + |(t.map round1).sum - t.sum| := abs_add _ _
      _ ≤ 1/20 + (t.length : ℚ) / 20 := add_le_add ha ih
      _ = ((t.length : ℚ) + 1) / 20 := by ring
      _ = (((t.length + 1 : ℕ)) : ℚ) / 20 := by push_cast; ring

/-! ## Claim theorems -/

/-- C1: for every transaction collection, `spendingMetrics.total` is the exact
sum of all transaction amounts rounded once to 2 decimal places at the end
(the accumulation itself is exact), under the single half-up rounding rule,
which in particular fixes every value that is already an integer number of
cents. -/
theorem spending_total_single_rounding (ts : List Transaction) :
    (calculateSpendingMetrics ts).total = round2 (sumAmounts ts) ∧
      ∀ n : ℤ, round2 ((n : ℚ) / 100) = (n : ℚ) / 100 := by
  refine ⟨?_, round2_hundredth⟩
  by_cases h : ts.length = 0
  · have hts : ts = [] := List.length_eq_zero.mp h
    subst hts
    simp [calculateSpendingMetrics, sumAmounts, round2_zero]
  · simp [calculateSpendingMetrics, h, foldl_add_amount]

/-- C2: the zero-default division-guard policy — with zero transactions the
average, daily average and utilization are all 0 and the highest/lowest
spending day carry the `{date: null, amount: 0}` sentinel, and with a zero
allocated budget the utilization is 0 for every transaction collection. -/
theorem zero_default_guard (b : ℚ) (ts : List Transaction) :
    (calculateSpendingMetrics []).average = 0 ∧
    (calculateSpendingMetrics []).dailyAverage = 0 ∧
    (calculateSpendingMetrics []).total = 0 ∧
    (calculateSpendingMetrics []).transactionCount = 0 ∧
    (analyzeBudget [] b).utilization = 0 ∧
    (analyzeSpendingTimeline []).highestSpendingDay = ⟨none, 0⟩ ∧
    (analyzeSpendingTimeline []).lowestSpendingDay = ⟨none, 0⟩ ∧
    (analyzeBudget ts 0).utilization = 0 := by
  refine ⟨rfl, rfl, rfl, rfl, ?_, rfl, rfl, ?_⟩
  · simp [analyzeBudget, round1_zero]
  · simp [analyzeBudget, round1_zero]

/-- C3: budget status is the 5-band classification of the utilization
percentage with boundaries inclusive on the lower band, `analyzeBudget`
classifies exactly that percentage, `isOverBudget` holds exactly when the
total spent strictly exceeds the allocated budget, and allocated 100 with
spent 101 yields "Over Budget" with `isOverBudget = true`. -/
theorem budget_status_bands (u : ℚ) (ts : List Transaction) (b : ℚ) :
    (u ≤ 50 → getBudgetStatus u = "Conservative") ∧
    (50 < u → u ≤ 75 → getBudgetStatus u = "Moderate") ∧
    (75 < u → u ≤ 90 → getBudgetStatus u = "High") ∧
    (90 < u → u ≤ 100 → getBudgetStatus u = "Near Limit") ∧
    (100 < u → getBudgetStatus u = "Over Budget") ∧
    (analyzeBudget ts b).status
      = getBudgetStatus (if 0 < b then sumAmounts ts / b * 100 else 0) ∧
    ((analyzeBudget ts b).isOverBudget = true ↔ b < sumAmounts ts) ∧
    (analyzeBudget [⟨"2024-01-01", "Food", 101⟩] 100).status = "Over Budget" ∧
    (analyzeBudget [⟨"2024-01-01", "Food", 101⟩] 100).isOverBudget = true := by
  refine ⟨?_, ?_, ?_, ?_, ?_, ?_, ?_, ?_, ?_⟩
  · intro h1
    rw [getBudgetStatus, if_pos h1]
  · intro h1 h2
    rw [getBudgetStatus, if_neg (by linarith), if_pos h2]
  · intro h1 h2
    rw [getBudgetStatus, if_neg (by linarith), if_neg (by linarith), if_pos h2]
  · intro h1 h2
    rw [getBudgetStatus, if_neg (by linarith), if_neg (by linarith), if_neg (by linarith),
      if_pos h2]
  · intro h1
    rw [getBudgetStatus, if_neg (by linarith), if_neg (by linarith), if_neg (by linarith),
      if_neg (by linarith)]
  · simp [analyzeBudget, foldl_add_amount]
  · simp [analyzeBudget, foldl_add_amount]
  · have hs : sumAmounts [⟨"2024-01-01", "Food", 101⟩] = 101 := by
      simp [sumAmounts]
    simp only [analyzeBudget, foldl_add_amount, hs, zero_add]
    norm_num [getBudgetStatus]
  · simp [analyzeBudget, foldl_add_amount]
    norm_num [sumAmounts]

/-- C10: calling the analysis with no loaded data always yields the dedicated
"No data loaded" error, which is not the not-found error of any student id,
and never a successful analysis. -/
theorem no_data_loaded_guard (sid : String) :
    analyzeStudent none sid = Except.error ("No data loaded. Call loadData() first.") ∧
    ("No data loaded. Call loadData() first." : String) ≠ "Student " ++ sid ++ " not found" ∧
    ∀ r : Analysis, analyzeStudent none sid ≠ Except.ok r := by
  refine ⟨rfl, ?_, ?_⟩
  · intro h
    have h3 := congrArg String.data h
    have e1 : ("Student " ++ sid ++ " not found").data
        = ("Student ").data ++ sid.data ++ (" not found").data := rfl
    have e2 : ("No data loaded. Call loadData() first.").data
        = 'N' :: ("o data loaded. Call loadData() first.").data := rfl
    have e3 : ("Student ").data = 'S' :: ("tudent ").data := rfl
    rw [e1, e2, e3] at h3
    simp at h3
  · intro r h
    simp [analyzeStudent] at h

/-- Witness for C3 at concrete utilizations in each band. -/
theorem budget_status_bands_witness :
    getBudgetStatus 40 = "Conservative" ∧ getBudgetStatus 60 = "Moderate" ∧
    getBudgetStatus 80 = "High" ∧ getBudgetStatus 95 = "Near Limit" ∧
    getBudgetStatus 101 = "Over Budget" :=
  ⟨(budget_status_bands 40 [] 0).1 (by norm_num),
   (budget_status_bands 60 [] 0).2.1 (by norm_num) (by norm_num),
   (budget_status_bands 80 [] 0).2.2.1 (by norm_num) (by norm_num),
   (budget_status_bands 95 [] 0).2.2.2.1 (by norm_num) (by norm_num),
   (budget_status_bands 101 [] 0).2.2.2.2.1 (by norm_num)⟩

/-- C7 counterexample: the reported average is computed from the unrounded
running sum, not from the rounded `total` field. At amounts [0.005, 0] the
code reports average 0, while dividing the rounded total 0.01 by the count 2
and rounding again gives 0.01. -/
theorem average_of_rounded_total_counterexample :
    ¬ ((calculateSpendingMetrics subCentTs).average
        = round2 ((calculateSpendingMetrics subCentTs).total
            / ((calculateSpendingMetrics subCentTs).transactionCount : ℚ))) := by
  have hm : calculateSpendingMetrics subCentTs = ⟨1/100, 0, 2, 1/100⟩ := by
    have hu : getUniqueDays subCentTs = 1 := by decide
    simp only [subCentTs] at hu ⊢
    simp only [calculateSpendingMetrics, List.foldl, List.length_cons,
      List.length_nil, hu]
    norm_num [round2]
  rw [hm]
  norm_num [round2]

/-- C7 (amended): for every non-empty transaction collection the average is
the exact (unrounded) sum of amounts divided by the transaction count, the
quotient being rounded once to 2 decimal places; it is 0 when there are no
transactions. -/
theorem spending_average_spec (ts : List Transaction) (h : ts ≠ []) :
    (calculateSpendingMetrics ts).average = round2 (sumAmounts ts / (ts.length : ℚ)) ∧
    (calculateSpendingMetrics []).average = 0 := by
  refine ⟨?_, rfl⟩
  have hl : ¬ ts.length = 0 := by simpa [List.length_eq_zero] using h
  simp [calculateSpendingMetrics, hl, foldl_add_amount]

/-- Witness for C7 (amended) at a concrete one-element list. -/
theorem spending_average_spec_witness :
    (calculateSpendingMetrics oneFoodTs).average
      = round2 (sumAmounts oneFoodTs / (oneFoodTs.length : ℚ)) :=
  (spending_average_spec oneFoodTs (by simp [oneFoodTs])).1

/-- C9: with data loaded, looking up an id matching no student fails with the
not-found error naming that id, and looking up a present id always succeeds. -/
theorem student_lookup (d : Dataset) (sid : String) :
    ((∀ s ∈ d.students, s.studentId ≠ sid) →
      analyzeStudent (some d) sid = Except.error ("Student " ++ sid ++ " not found")) ∧
    ((∃ s ∈ d.students, s.studentId = sid) →
      ∃ r : Analysis, analyzeStudent (some d) sid = Except.ok r) := by
  constructor
  · intro h
    have hf : d.students.find? (fun s => s.studentId = sid) = none := by
      rw [List.find?_eq_none]
      intro x hx
      simp [h x hx]
    simp [analyzeStudent, hf]
  · rintro ⟨s, hs, heq⟩
    have hf : (d.students.find? (fun s => s.studentId = sid)).isSome := by
      rw [List.find?_isSome]
      exact ⟨s, hs, by simp [heq]⟩
    obtain ⟨s', hs'⟩ := Option.isSome_iff_exists.mp hf
    refine ⟨⟨⟨s'.studentId, s'.name, s'.semester, s'.monthlyBudget⟩,
      calculateSpendingMetrics s'.transactions,
      analyzeBudget s'.transactions s'.monthlyBudget,
      analyzeCategoricalSpending s'.transactions,
      analyzeSpendingTimeline s'.transactions⟩, ?_⟩
    simp [analyzeStudent, hs']

/-- Witness for C9 on a concrete dataset: an absent id yields the not-found
error naming it, a present id yields a successful analysis. -/
theorem student_lookup_witness :
    analyzeStudent (some exDataset) "STU999" = Except.error ("Student STU999 not found") ∧
    ∃ r : Analysis, analyzeStudent (some exDataset) "STU999" ≠ Except.ok r ∧
      analyzeStudent (some exDataset) "STU001" = Except.ok r := by
  have h1 := (student_lookup exDataset "STU999").1 (by decide)
  have h2 := (student_lookup exDataset "STU001").2
    ⟨⟨"STU001", "Alice", "Fall", 400, []⟩, List.mem_cons_self _ _, rfl⟩
  obtain ⟨r, hr⟩ := h2
  exact ⟨h1, r, by rw [h1] ; exact fun hc => Except.noConfusion hc, hr⟩

/-- C6 evidence: the validator rejects a student whose `budgetLimit` is the
defined value 0 (the JS truthiness test `!student.monthlyBudget` treats 0 as
missing) with the missing-fields error; it rejects a missing transaction
amount naming the record and transaction index; and it accepts a fully
present dataset whose only amount is 0. -/
theorem validator_behavior :
    validateData (some zeroBudgetData) = Except.error ("Student 1: Missing required fields") ∧
    validateData (some missingAmountData)
      = Except.error ("Student 1, Transaction 2: Missing required fields") ∧
    validateData (some zeroAmountData) = Except.ok () := by
  have h400 : truthyNum (some (400 : ℚ)) = true := by
    simp [truthyNum]
  have h5 : truthyNum (some (5 : ℚ)) = true := by
    simp [truthyNum]
  have h0 : truthyNum (some (0 : ℚ)) = false := by
    simp [truthyNum]
  refine ⟨?_, ?_, ?_⟩
  · simp only [zeroBudgetData, validateData, validateStudents, truthyStr, h0]
    rfl
  · simp only [missingAmountData, validateData, validateStudents, validateTransactions,
      truthyStr, h400, h5]
    rfl
  · simp only [zeroAmountData, validateData, validateStudents, validateTransactions,
      truthyStr, h400, h0]
    rfl

theorem insertByAmountDesc_perm (c : CategoryEntry) (l : List CategoryEntry) :
    (insertByAmountDesc c l).Perm (c :: l) := by
  induction l with
  | nil => exact List.Perm.refl _
  | cons d ds ih =>
    rw [insertByAmountDesc]
    by_cases h : c.amount < d.amount
    · rw [if_pos h]
      exact (ih.cons d).trans (List.Perm.swap c d ds)
    · rw [if_neg h]

theorem sortByAmountDesc_perm (l : List CategoryEntry) : (sortByAmountDesc l).Perm l := by
  induction l with
  | nil => exact List.Perm.refl _
  | cons c cs ih => exact (insertByAmountDesc_perm c _).trans (ih.cons c)

theorem insertByAmountDesc_sorted (c : CategoryEntry) (l : List CategoryEntry)
    (h : l.Pairwise fun a b => b.amount ≤ a.amount) :
    (insertByAmountDesc c l).Pairwise fun a b => b.amount ≤ a.amount := by
  induction l with
  | nil => simp [insertByAmountDesc]
  | cons d ds ih =>
    rw [List.pairwise_cons] at h
    rw [insertByAmountDesc]
    by_cases hcd : c.amount < d.amount
    · rw [if_pos hcd]
      rw [List.pairwise_cons]
      refine ⟨?_, ih h.2⟩
      intro e he
      have hmem : e ∈ c :: ds := (insertByAmountDesc_perm c ds).mem_iff.mp he
      rcases List.mem_cons.mp hmem with rfl | hds
      · exact hcd.le
      · exact h.1 e hds
    · rw [if_neg hcd]
      push_neg at hcd
      rw [List.pairwise_cons]
      refine ⟨?_, List.pairwise_cons.mpr h⟩
      intro e he
      rcases List.mem_cons.mp he with rfl | hds
      · exact hcd
      · exact (h.1 e hds).trans hcd

theorem sortByAmountDesc_sorted (l : List CategoryEntry) :
    (sortByAmountDesc l).Pairwise fun a b => b.amount ≤ a.amount := by
  induction l with
  | nil => simp [sortByAmountDesc]
  | cons c cs ih => exact insertByAmountDesc_sorted c _ ih

theorem filter_insertByAmountDesc (c : CategoryEntry) (l : List CategoryEntry) (q : ℚ) :
    (insertByAmountDesc c l).filter (fun e => e.amount = q)
      = if c.amount = q then c :: l.filter (fun e => e.amount = q)
        else l.filter (fun e => e.amount = q) := by
  induction l with
  | nil =>
    by_cases hc : c.amount = q <;> simp [insertByAmountDesc, List.filter, hc]
  | cons d ds ih =>
    rw [insertByAmountDesc]
    by_cases hcd : c.amount < d.amount
    · rw [if_pos hcd]
      by_cases hc : c.amount = q
      · have hd : ¬ d.amount = q := by
          rw [← hc]
          exact (ne_of_gt hcd)
        simp [List.filter_cons, hd, ih, hc]
      · simp [List.filter_cons, ih, hc]
    · rw [if_neg hcd]
      by_cases hc : c.amount = q <;> simp [List.filter_cons, hc]

theorem filter_sortByAmountDesc (l : List CategoryEntry) (q : ℚ) :
    (sortByAmountDesc l).filter (fun e => e.amount = q)
      = l.filter (fun e => e.amount = q) := by
  induction l with
  | nil => rfl
  | cons c cs ih =>
    have hstep : sortByAmountDesc (c :: cs) = insertByAmountDesc c (sortByAmountDesc cs) := rfl
    rw [hstep, filter_insertByAmountDesc]
    by_cases hc : c.amount = q <;> simp [List.filter_cons, hc, ih]

theorem addCat_keys (cat : String) (amt : ℚ) (l : List (String × ℚ × ℕ)) :
    (addCat cat amt l).map Prod.fst
      = if cat ∈ l.map Prod.fst then l.map Prod.fst else l.map Prod.fst ++ [cat] := by
  induction l with
  | nil => simp [addCat]
  | cons p ps ih =>
    obtain ⟨c, a, n⟩ := p
    rw [addCat]
    by_cases h : c = cat
    · subst h
      simp
    · rw [if_neg h]
      have hne : ¬ cat = c := fun hh => h hh.symm
      by_cases hm : cat ∈ ps.map Prod.fst <;> simp [ih, hm, hne]

theorem groupCategories_keys_aux (ts : List Transaction) (acc : List (String × ℚ × ℕ)) :
    ((ts.foldl (fun acc t => addCat t.category t.amount acc) acc).map Prod.fst)
      = (ts.map fun t => t.category).foldl
          (fun ks c => if c ∈ ks then ks else ks ++ [c]) (acc.map Prod.fst) := by
  induction ts generalizing acc with
  | nil => rfl
  | cons t rest ih =>
    simp only [List.foldl_cons, List.map_cons]
    rw [ih, addCat_keys]

theorem groupCategories_keys (ts : List Transaction) :
    (groupCategories ts).map Prod.fst = firstSeenKeys (ts.map fun t => t.category) :=
  groupCategories_keys_aux ts []

theorem insertByDateAsc_perm (e : DayEntry) (l : List DayEntry) :
    (insertByDateAsc e l).Perm (e :: l) := by
  induction l with
  | nil => exact List.Perm.refl _
  | cons d ds ih =>
    rw [insertByDateAsc]
    by_cases h : entryKey d < entryKey e
    · rw [if_pos h]
      exact (ih.cons d).trans (List.Perm.swap e d ds)
    · rw [if_neg h]

theorem sortByDateAsc_perm (l : List DayEntry) : (sortByDateAsc l).Perm l := by
  induction l with
  | nil => exact List.Perm.refl _
  | cons e es ih => exact (insertByDateAsc_perm e _).trans (ih.cons e)

theorem insertByDateAsc_sorted (e : DayEntry) (l : List DayEntry)
    (h : l.Pairwise fun a b => entryKey a ≤ entryKey b) :
    (insertByDateAsc e l).Pairwise fun a b => entryKey a ≤ entryKey b := by
  induction l with
  | nil => simp [insertByDateAsc]
  | cons d ds ih =>
    rw [List.pairwise_cons] at h
    rw [insertByDateAsc]
    by_cases hde : entryKey d < entryKey e
    · rw [if_pos hde]
      rw [List.pairwise_cons]
      refine ⟨?_, ih h.2⟩
      intro x hx
      have hmem : x ∈ e :: ds := (insertByDateAsc_perm e ds).mem_iff.mp hx
      rcases List.mem_cons.mp hmem with rfl | hds
      · exact hde.le
      · exact h.1 x hds
    · rw [if_neg hde]
      push_neg at hde
      rw [List.pairwise_cons]
      refine ⟨?_, List.pairwise_cons.mpr h⟩
      intro x hx
      rcases List.mem_cons.mp hx with rfl | hds
      · exact hde
      · exact hde.trans (h.1 x hds)

theorem sortByDateAsc_sorted (l : List DayEntry) :
    (sortByDateAsc l).Pairwise fun a b => entryKey a ≤ entryKey b := by
  induction l with
  | nil => simp [sortByDateAsc]
  | cons e es ih => exact insertByDateAsc_sorted e _ ih

theorem lookupAmt_addToGroup (key : String) (amt : ℚ) (l : List (String × ℚ)) (d : String) :
    lookupAmt d (addToGroup key amt l)
      = if d = key then some ((lookupAmt d l).getD 0 + amt) else lookupAmt d l := by
  induction l with
  | nil =>
    by_cases h : d = key
    · subst h
      simp [addToGroup, lookupAmt]
    · have hne : ¬ key = d := fun hh => h hh.symm
      simp [addToGroup, lookupAmt, h, hne]
  | cons p ps ih =>
    obtain ⟨k, a⟩ := p
    rw [addToGroup]
    by_cases hk : k = key
    · subst hk
      by_cases hd : d = k
      · subst hd
        simp [lookupAmt]
      · have hne : ¬ k = d := fun hh => hd hh.symm
        simp [lookupAmt, hd, hne]
    · rw [if_neg hk]
      by_cases hkd : k = d
      · subst hkd
        simp [lookupAmt, hk]
      · simp [lookupAmt, hkd, ih]

theorem lookupAmt_groupByDate_aux (ts : List Transaction) (acc : List (String × ℚ))
    (d : String) :
    lookupAmt d (ts.foldl (fun acc t => addToGroup t.date t.amount acc) acc)
      = if (lookupAmt d acc).isSome ∨ d ∈ ts.map (fun t => t.date)
        then some ((lookupAmt d acc).getD 0
          + ((ts.filter fun t => t.date = d).map fun t => t.amount).sum)
        else none := by
  induction ts generalizing acc with
  | nil =>
    cases hlk : lookupAmt d acc <;> simp [hlk]
  | cons t rest ih =>
    simp only [List.foldl_cons, List.map_cons, List.filter_cons]
    rw [ih, lookupAmt_addToGroup]
    by_cases hd : d = t.date
    · subst hd
      rw [if_pos rfl]
      cases hlk : lookupAmt t.date acc <;> simp [hlk, add_assoc]
    · have hdt : ¬ t.date = d := fun hh => hd hh.symm
      rw [if_neg hd]
      simp [hdt, hd, List.mem_cons]

theorem lookupAmt_groupByDate (ts : List Transaction) (d : String) :
    lookupAmt d (groupByDate ts)
      = if d ∈ ts.map (fun t => t.date)
        then some (((ts.filter fun t => t.date = d).map fun t => t.amount).sum)
        else none := by
  have h := lookupAmt_groupByDate_aux ts [] d
  simpa [lookupAmt] using h

theorem addToGroup_ne_nil (key : String) (amt : ℚ) (l : List (String × ℚ)) :
    addToGroup key amt l ≠ [] := by
  cases l with
  | nil => simp [addToGroup]
  | cons p ps =>
    obtain ⟨k, a⟩ := p
    rw [addToGroup]
    by_cases h : k = key <;> simp [h]

theorem foldl_addToGroup_ne_nil (ts : List Transaction) (acc : List (String × ℚ))
    (h : acc ≠ []) :
    ts.foldl (fun acc t => addToGroup t.date t.amount acc) acc ≠ [] := by
  induction ts generalizing acc with
  | nil => exact h
  | cons t rest ih => exact ih _ (addToGroup_ne_nil _ _ _)

theorem groupByDate_ne_nil (ts : List Transaction) (h : ts ≠ []) : groupByDate ts ≠ [] := by
  cases ts with
  | nil => exact absurd rfl h
  | cons t rest =>
    rw [groupByDate, List.foldl_cons]
    exact foldl_addToGroup_ne_nil rest _ (addToGroup_ne_nil _ _ _)

/-- The source's `reduce((best, day) => strict-compare ? day : best, init)`
pattern: the result bounds every element, bounds the initial value, and is
either the initial value or an element preceded only by strictly smaller
elements (so the first occurrence wins ties). -/
theorem foldl_pick_spec (f : DayEntry → ℚ) (xs : List DayEntry) :
    ∀ init : DayEntry,
      (∀ e ∈ xs, f e ≤ f (xs.foldl (fun a b => if f a < f b then b else a) init)) ∧
      f init ≤ f (xs.foldl (fun a b => if f a < f b then b else a) init) ∧
      (xs.foldl (fun a b => if f a < f b then b else a) init = init ∨
        ∃ l₁ l₂, xs = l₁ ++ xs.foldl (fun a b => if f a < f b then b else a) init :: l₂ ∧
          f init < f (xs.foldl (fun a b => if f a < f b then b else a) init) ∧
          ∀ e ∈ l₁, f e < f (xs.foldl (fun a b => if f a < f b then b else a) init)) := by
  induction xs with
  | nil =>
    intro init
    exact ⟨by simp, le_refl _, Or.inl rfl⟩
  | cons b bs ih =>
    intro init
    simp only [List.foldl_cons]
    by_cases hc : f init < f b
    · rw [if_pos hc]
      obtain ⟨hub, hinit, hpos⟩ := ih b
      refine ⟨?_, hc.le.trans hinit, ?_⟩
      · intro e he
        rcases List.mem_cons.mp he with rfl | hbs
        · exact hinit
        · exact hub e hbs
      · right
        rcases hpos with heq | ⟨l₁, l₂, hsplit, hstrict, hpref⟩
        · refine ⟨[], bs, ?_, ?_, by simp⟩
          · rw [heq]
            rfl
          · rw [heq]
            exact hc
        · refine ⟨b :: l₁, l₂, ?_, hc.trans hstrict, ?_⟩
          · rw [List.cons_append, ← hsplit]
          · intro e he
            rcases List.mem_cons.mp he with rfl | hl
            · exact hstrict
            · exact hpref e hl
    · rw [if_neg hc]
      push_neg at hc
      obtain ⟨hub, hinit, hpos⟩ := ih init
      refine ⟨?_, hinit, ?_⟩
      · intro e he
        rcases List.mem_cons.mp he with rfl | hbs
        · exact hc.trans hinit
        · exact hub e hbs
      · rcases hpos with heq | ⟨l₁, l₂, hsplit, hstrict, hpref⟩
        · exact Or.inl heq
        · right
          refine ⟨b :: l₁, l₂, ?_, hstrict, ?_⟩
          · rw [List.cons_append, ← hsplit]
          · intro e he
            rcases List.mem_cons.mp he with rfl | hl
            · exact lt_of_le_of_lt hc hstrict
            · exact hpref e hl

theorem analyzeSpendingTimeline_highest (ts : List Transaction) :
    (analyzeSpendingTimeline ts).highestSpendingDay
      = List.foldl (fun a b : DayEntry => if a.amount < b.amount then b else a)
          ((analyzeSpendingTimeline ts).dailySpending.headD ⟨none, 0⟩)
          (analyzeSpendingTimeline ts).dailySpending := by
  have hfun : (fun mx day : DayEntry => if day.amount > mx.amount then day else mx)
      = fun a b : DayEntry => if a.amount < b.amount then b else a := by
    funext a b
    simp [gt_iff_lt]
  simp only [analyzeSpendingTimeline, hfun]

theorem analyzeSpendingTimeline_lowest (ts : List Transaction) :
    (analyzeSpendingTimeline ts).lowestSpendingDay
      = List.foldl (fun a b : DayEntry => if -a.amount < -b.amount then b else a)
          ((analyzeSpendingTimeline ts).dailySpending.headD ⟨none, 0⟩)
          (analyzeSpendingTimeline ts).dailySpending := by
  have hfun : (fun mn day : DayEntry => if day.amount < mn.amount then day else mn)
      = fun a b : DayEntry => if -a.amount < -b.amount then b else a := by
    funext a b
    simp [neg_lt_neg_iff]
  simp only [analyzeSpendingTimeline, hfun]

/-- C5: the timeline associates each date with the sum of its transaction
amounts, lists the per-day entries sorted ascending by chronological date
value, and selects the maximum and minimum entries with the first occurrence
in ascending date order winning ties; on the spec's example the daily sums are
10 and 45 with highest {2024-01-02, 45} and lowest {2024-01-01, 10}. -/
theorem timeline_reduction (ts : List Transaction) :
    ((analyzeSpendingTimeline ts).dailySpending.Pairwise
      fun a b => entryKey a ≤ entryKey b) ∧
    (analyzeSpendingTimeline ts).dailySpending.Perm
      ((groupByDate ts).map fun p => ⟨some p.1, round2 p.2⟩) ∧
    (∀ d : String, lookupAmt d (groupByDate ts)
        = if d ∈ ts.map (fun t => t.date)
          then some (((ts.filter fun t => t.date = d).map fun t => t.amount).sum)
          else none) ∧
    (ts ≠ [] →
      (∃ l₁ l₂, (analyzeSpendingTimeline ts).dailySpending
          = l₁ ++ (analyzeSpendingTimeline ts).highestSpendingDay :: l₂ ∧
        (∀ e ∈ l₁, e.amount < (analyzeSpendingTimeline ts).highestSpendingDay.amount) ∧
        (∀ e ∈ (analyzeSpendingTimeline ts).dailySpending,
          e.amount ≤ (analyzeSpendingTimeline ts).highestSpendingDay.amount)) ∧
      (∃ l₁ l₂, (analyzeSpendingTimeline ts).dailySpending
          = l₁ ++ (analyzeSpendingTimeline ts).lowestSpendingDay :: l₂ ∧
        (∀ e ∈ l₁, (analyzeSpendingTimeline ts).lowestSpendingDay.amount < e.amount) ∧
        (∀ e ∈ (analyzeSpendingTimeline ts).dailySpending,
          (analyzeSpendingTimeline ts).lowestSpendingDay.amount ≤ e.amount))) ∧
    analyzeSpendingTimeline timelineExTs
      = ⟨[⟨some "2024-01-01", 10⟩, ⟨some "2024-01-02", 45⟩],
          ⟨some "2024-01-02", 45⟩, ⟨some "2024-01-01", 10⟩⟩ := by
  refine ⟨sortByDateAsc_sorted _, sortByDateAsc_perm _,
    fun d => lookupAmt_groupByDate ts d, ?_, ?_⟩
  · intro hne
    have h3 : (analyzeSpendingTimeline ts).dailySpending ≠ [] := by
      have h1 : groupByDate ts ≠ [] := groupByDate_ne_nil ts hne
      intro hc
      have hperm := sortByDateAsc_perm
        ((groupByDate ts).map fun p => (⟨some p.1, round2 p.2⟩ : DayEntry))
      have hc2 : sortByDateAsc
          ((groupByDate ts).map fun p => (⟨some p.1, round2 p.2⟩ : DayEntry)) = [] := hc
      rw [hc2] at hperm
      have h4 := hperm.symm.eq_nil
      rw [List.map_eq_nil_iff] at h4
      exact h1 h4
    obtain ⟨h, t, hsd⟩ : ∃ h t, (analyzeSpendingTimeline ts).dailySpending = h :: t := by
      cases hsp : (analyzeSpendingTimeline ts).dailySpending with
      | nil => exact absurd hsp h3
      | cons h t => exact ⟨h, t, rfl⟩
    constructor
    · rw [analyzeSpendingTimeline_highest, hsd]
      simp only [List.headD_cons]
      obtain ⟨hub, hinit, hpos⟩ := foldl_pick_spec (fun e => e.amount) (h :: t) h
      rcases hpos with heq | ⟨l₁, l₂, hsplit, _hstr, hpref⟩
      · refine ⟨[], t, ?_, ?_, hub⟩
        · rw [heq]
          rfl
        · intro e he
          exact absurd he (List.not_mem_nil e)
      · exact ⟨l₁, l₂, hsplit, hpref, hub⟩
    · rw [analyzeSpendingTimeline_lowest, hsd]
      simp only [List.headD_cons]
      obtain ⟨hub, hinit, hpos⟩ := foldl_pick_spec (fun e => -e.amount) (h :: t) h
      rcases hpos with heq | ⟨l₁, l₂, hsplit, _hstr, hpref⟩
      · refine ⟨[], t, ?_, ?_, ?_⟩
        · rw [heq]
          rfl
        · intro e he
          exact absurd he (List.not_mem_nil e)
        · intro e he
          exact neg_le_neg_iff.mp (hub e he)
      · refine ⟨l₁, l₂, hsplit, ?_, ?_⟩
        · intro e he
          exact neg_lt_neg_iff.mp (hpref e he)
        · intro e he
          exact neg_le_neg_iff.mp (hub e he)
  · have hg : groupByDate timelineExTs = [("2024-01-02", 45), ("2024-01-01", 10)] := by
      norm_num [timelineExTs, groupByDate, addToGroup]
    have hm : (groupByDate timelineExTs).map (fun p => (⟨some p.1, round2 p.2⟩ : DayEntry))
        = [⟨some "2024-01-02", 45⟩, ⟨some "2024-01-01", 10⟩] := by
      rw [hg]
      norm_num [round2]
    have hs : sortByDateAsc [⟨some "2024-01-02", (45 : ℚ)⟩, ⟨some "2024-01-01", 10⟩]
        = [⟨some "2024-01-01", 10⟩, ⟨some "2024-01-02", 45⟩] := by
      have hlt : entryKey ⟨some "2024-01-01", (10 : ℚ)⟩
          < entryKey ⟨some "2024-01-02", (45 : ℚ)⟩ := by decide
      simp only [sortByDateAsc, List.foldr, insertByDateAsc, if_pos hlt]
    simp only [analyzeSpendingTimeline, hm, hs]
    norm_num [List.foldl, List.headD]

/-- Witness for C5 on a concrete non-empty transaction list: the selected
highest spending day is an entry of the daily sequence. -/
theorem timeline_reduction_witness :
    (analyzeSpendingTimeline oneFoodTs).highestSpendingDay
      ∈ (analyzeSpendingTimeline oneFoodTs).dailySpending := by
  obtain ⟨⟨l₁, l₂, hsplit, _, _⟩, _⟩ :=
    (timeline_reduction oneFoodTs).2.2.2.1 (by simp [oneFoodTs])
  rw [hsplit]
  exact List.mem_append_right _ (List.mem_cons_self _ _)

/-- C4: the category breakdown is sorted by (reported) summed amount
descending, entries with equal amounts keep exactly their order in the
pre-sort array — which lists categories in first-seen insertion order — and
the sorted output is a permutation of that array. -/
theorem category_ranking_stable (ts : List Transaction) :
    ((analyzeCategoricalSpending ts).Pairwise fun a b => b.amount ≤ a.amount) ∧
    (∀ q : ℚ, (analyzeCategoricalSpending ts).filter (fun e => e.amount = q)
        = (categoryEntriesBase ts).filter (fun e => e.amount = q)) ∧
    (analyzeCategoricalSpending ts).Perm (categoryEntriesBase ts) ∧
    (groupCategories ts).map Prod.fst = firstSeenKeys (ts.map fun t => t.category) :=
  ⟨sortByAmountDesc_sorted _, fun q => filter_sortByAmountDesc _ q,
    sortByAmountDesc_perm _, groupCategories_keys ts⟩

theorem addCat_sum (cat : String) (amt : ℚ) (l : List (String × ℚ × ℕ)) :
    ((addCat cat amt l).map fun x => x.2.1).sum = amt + (l.map fun x => x.2.1).sum := by
  induction l with
  | nil => simp [addCat]
  | cons p ps ih =>
    obtain ⟨c, a, n⟩ := p
    rw [addCat]
    by_cases h : c = cat
    · subst h
      simp only [eq_self_iff_true, if_true, List.map_cons, List.sum_cons]
      ring
    · rw [if_neg h]
      simp only [List.map_cons, List.sum_cons, ih]
      ring

theorem groupCategories_sum_aux (ts : List Transaction) (acc : List (String × ℚ × ℕ)) :
    ((ts.foldl (fun acc t => addCat t.category t.amount acc) acc).map fun x => x.2.1).sum
      = (acc.map fun x => x.2.1).sum + sumAmounts ts := by
  induction ts generalizing acc with
  | nil => simp [sumAmounts]
  | cons t rest ih =>
    simp only [List.foldl_cons]
    rw [ih, addCat_sum]
    simp only [sumAmounts, List.map_cons, List.sum_cons]
    ring

theorem groupCategories_sum (ts : List Transaction) :
    ((groupCategories ts).map fun x => x.2.1).sum = sumAmounts ts := by
  have h := groupCategories_sum_aux ts []
  simpa using h

/-- C8 (amended): for every non-empty transaction collection whose total
spent is positive, the reported category percentages sum to 100 within a
tolerance of 0.1 per distinct category. -/
theorem category_percentages_sum (ts : List Transaction) (hne : ts ≠ [])
    (hpos : 0 < sumAmounts ts) :
    |((analyzeCategoricalSpending ts).map fun e => e.percentage).sum - 100|
      ≤ ((analyzeCategoricalSpending ts).length : ℚ) / 10 := by
  have hT : ((groupCategories ts).map fun x => x.2.1).sum = sumAmounts ts :=
    groupCategories_sum ts
  have hperm : (analyzeCategoricalSpending ts).Perm (categoryEntriesBase ts) :=
    sortByAmountDesc_perm _
  have hsum_eq : ((analyzeCategoricalSpending ts).map fun e => e.percentage).sum
      = ((categoryEntriesBase ts).map fun e => e.percentage).sum :=
    (hperm.map _).sum_eq
  have hbase : categoryEntriesBase ts
      = (groupCategories ts).map (mkCategoryEntry (sumAmounts ts)) := by
    simp only [categoryEntriesBase]
    rw [hT]
  have hmap : ((categoryEntriesBase ts).map fun e => e.percentage)
      = ((groupCategories ts).map fun x => x.2.1 / sumAmounts ts * 100).map round1 := by
    rw [hbase, List.map_map, List.map_map]
    refine List.map_congr_left fun x _ => ?_
    simp [Function.comp, mkCategoryEntry, hpos]
  have herr := sum_round1_err ((groupCategories ts).map fun x => x.2.1 / sumAmounts ts * 100)
  have hlsum : ((groupCategories ts).map fun x => x.2.1 / sumAmounts ts * 100).sum = 100 := by
    have hfn : (fun x : String × ℚ × ℕ => x.2.1 / sumAmounts ts * 100)
        = fun x : String × ℚ × ℕ => x.2.1 * (100 / sumAmounts ts) := by
      funext x
      ring
    rw [hfn, List.sum_map_mul_right, hT]
    field_simp
  have hlen : (analyzeCategoricalSpending ts).length = (groupCategories ts).length := by
    rw [hperm.length_eq, hbase, List.length_map]
  have hnn : (0 : ℚ) ≤ ((groupCategories ts).length : ℚ) := Nat.cast_nonneg _
  have hlen2 : ((groupCategories ts).map fun x => x.2.1 / sumAmounts ts * 100).length
      = (groupCategories ts).length := List.length_map _ _
  rw [hlen2, hlsum] at herr
  rw [hsum_eq, hmap, hlen]
  linarith

/-- C8 counterexample: a non-empty collection whose only amount is 0 has a
single category whose percentage is 0, so the percentages sum to 0, off from
100 by far more than 0.1 per category. -/
theorem category_percentages_sum_counterexample :
    ¬ (|((analyzeCategoricalSpending zeroAmountTs).map fun e => e.percentage).sum - 100|
        ≤ ((analyzeCategoricalSpending zeroAmountTs).length : ℚ) / 10) := by
  have h1 : groupCategories zeroAmountTs = [("Food", 0, 1)] := by
    simp [zeroAmountTs, groupCategories, addCat]
  have hout : analyzeCategoricalSpending zeroAmountTs
      = [⟨"Food", 0, 0, 1, 0⟩] := by
    simp only [analyzeCategoricalSpending, categoryEntriesBase, h1]
    norm_num [mkCategoryEntry, sortByAmountDesc, insertByAmountDesc, round2]
  rw [hout]
  norm_num

/-- Witness for C8 (amended) at a concrete one-element list with a positive
amount. -/
theorem category_percentages_sum_witness :
    |((analyzeCategoricalSpending oneFoodTs).map fun e => e.percentage).sum - 100|
      ≤ ((analyzeCategoricalSpending oneFoodTs).length : ℚ) / 10 :=
  category_percentages_sum oneFoodTs (by simp [oneFoodTs])
    (by norm_num [oneFoodTs, sumAmounts])

end SpendAnalyzer
